import Mathlib

/-!
Verification of the Mistral ETL preprocessing pipeline (Ameciclo/mistral).

The development shallowly embeds the two preprocessing variants of the
repository:

* the schema-unified variant (`src/etl/preprocess.ts`): extension-based
  separator choice, header standardization, unified-schema collection,
  date/time normalization, numeric coercion, and the per-row transform;
* the NDJSON variant (delimiter detection by first-line content,
  `isValidTime`, `combineDateTime`, the four-field row transform with a
  serialized `meta` remainder, and the per-row error-isolation loop).

Strings are modelled on their underlying `Char` lists so that every
definition evaluates inside the kernel.  JavaScript-specific behaviours
(string truthiness, `String.prototype.split`, `parseFloat`, `Date`
parsing, `Array.prototype.sort`) are modelled explicitly; each such
definition carries a comment describing the modelled behaviour.
-/

set_option maxRecDepth 100000

namespace Mistral

/-- Models the JavaScript whitespace class (regexp `\s` and
`String.prototype.trim`): tab, line feed, vertical tab, form feed,
carriage return, space, NBSP, and the Unicode space separators,
line/paragraph separators, and the BOM. -/
def isJsWhitespace (c : Char) : Bool :=
  decide (c.toNat = 9 ∨ c.toNat = 10 ∨ c.toNat = 11 ∨ c.toNat = 12 ∨
    c.toNat = 13 ∨ c.toNat = 32 ∨ c.toNat = 160 ∨ c.toNat = 5760 ∨
    (8192 ≤ c.toNat ∧ c.toNat ≤ 8202) ∨ c.toNat = 8232 ∨
    c.toNat = 8233 ∨ c.toNat = 8239 ∨ c.toNat = 8287 ∨
    c.toNat = 12288 ∨ c.toNat = 65279)

/-- ASCII lowercasing of one character, as `String.prototype.toLowerCase`
acts on ASCII.  (The special Unicode case mappings, e.g. the Kelvin sign,
are not modelled; any character they produce or consume is outside
`[a-z0-9_]` and is erased by the final strip of `standardizeHeader`
either way.) -/
def jsLowerChar (c : Char) : Char :=
  if 65 ≤ c.toNat ∧ c.toNat ≤ 90 then Char.ofNat (c.toNat + 32) else c

/-- The character class `[a-z0-9_]` kept by `standardizeHeader`. -/
def allowedHeaderChar (c : Char) : Bool :=
  decide ((97 ≤ c.toNat ∧ c.toNat ≤ 122) ∨ (48 ≤ c.toNat ∧ c.toNat ≤ 57) ∨
    c.toNat = 95)

/-- Models `String.prototype.trim`: drop JS whitespace from both ends. -/
def jsTrimList (l : List Char) : List Char :=
  ((l.dropWhile isJsWhitespace).reverse.dropWhile isJsWhitespace).reverse

/-- String-level `trim`, used by `combineDateTime`. -/
def jsTrim (s : String) : String := String.mk (jsTrimList s.data)

/-- Models `replace(/\s+/g, "_")`: each maximal run of whitespace becomes
a single underscore.  The flag records whether the previous character was
part of a whitespace run. -/
def collapseWsAux (prevWs : Bool) : List Char → List Char
  | [] => []
  | c :: cs =>
    if isJsWhitespace c then
      if prevWs then collapseWsAux true cs else '_' :: collapseWsAux true cs
    else c :: collapseWsAux false cs

/-- Replace each maximal whitespace run with one underscore. -/
def collapseWhitespaceRuns (l : List Char) : List Char := collapseWsAux false l

/-- The character-list core of `standardizeHeader`: trim, lowercase,
replace each whitespace run with `_`, strip everything outside
`[a-z0-9_]`. -/
def stdCore (l : List Char) : List Char :=
  (collapseWhitespaceRuns ((jsTrimList l).map jsLowerChar)).filter
    allowedHeaderChar

/-- Function `standardizeHeader` from `src/etl/preprocess.ts`: trim, lowercase,
replace each whitespace run with `_`, strip everything outside
`[a-z0-9_]`. -/
def standardizeHeader (s : String) : String := String.mk (stdCore s.data)

/-- Lexicographic comparison of character lists by code point, modelling
the default `Array.prototype.sort` string comparison (UTF-16 code-unit
order; identical to code-point order on the characters produced by
`standardizeHeader`). -/
def listLe : List Char → List Char → Bool
  | [], _ => true
  | _ :: _, [] => false
  | a :: as, b :: bs =>
    if a.toNat < b.toNat then true
    else if b.toNat < a.toNat then false
    else listLe as bs

/-- String comparison used when sorting the unified schema. -/
def jsStrLe (a b : String) : Bool := listLe a.data b.data

/-- The sort order on header strings, as a decidable relation. -/
def headerLe (a b : String) : Prop := jsStrLe a b = true

instance : DecidableRel headerLe := fun a b => by
  unfold headerLe; infer_instance

theorem listLe_total (a b : List Char) : listLe a b = true ∨ listLe b a = true := by
  induction a generalizing b with
  | nil => left; rfl
  | cons x xs ih =>
    cases b with
    | nil => right; rfl
    | cons y ys =>
      by_cases hxy : x.toNat < y.toNat
      · left; simp [listLe, hxy]
      · by_cases hyx : y.toNat < x.toNat
        · right; simp [listLe, hyx]
        · rcases ih ys with h | h
          · left; simp [listLe, hxy, hyx, h]
          · right; simp [listLe, hxy, hyx, h]

theorem listLe_trans {a b c : List Char} (hab : listLe a b = true)
    (hbc : listLe b c = true) : listLe a c = true := by
  induction a generalizing b c with
  | nil => rfl
  | cons x xs ih =>
    cases b with
    | nil => simp [listLe] at hab
    | cons y ys =>
      cases c with
      | nil => simp [listLe] at hbc
      | cons z zs =>
        simp only [listLe] at hab hbc ⊢
        by_cases hxy : x.toNat < y.toNat
        · by_cases hyz : y.toNat < z.toNat
          · simp [show x.toNat < z.toNat by omega]
          · by_cases hzy : z.toNat < y.toNat
            · simp [hyz, hzy] at hbc
            · simp [show x.toNat < z.toNat by omega]
        · by_cases hyx : y.toNat < x.toNat
          · simp [hxy, hyx] at hab
          · by_cases hyz : y.toNat < z.toNat
            · simp [show x.toNat < z.toNat by omega]
            · by_cases hzy : z.toNat < y.toNat
              · simp [hyz, hzy] at hbc
              · have hxz : ¬ x.toNat < z.toNat := by omega
                have hzx : ¬ z.toNat < x.toNat := by omega
                simp only [hxy, hyx, if_neg, ite_false] at hab
                simp only [hyz, hzy, if_neg, ite_false] at hbc
                simp [hxz, hzx, ih hab hbc]

instance : IsTotal String headerLe :=
  ⟨fun a b => listLe_total a.data b.data⟩

instance : IsTrans String headerLe :=
  ⟨fun _ _ _ hab hbc => listLe_trans hab hbc⟩

/-- Models `String.prototype.split` with a single-character separator:
`splitOnChar sep l` is the list of (possibly empty) segments of `l`
between occurrences of `sep`.  On the empty list the result is `[[]]`,
matching `"".split(x) == [""]`. -/
def splitOnChar (sep : Char) (l : List Char) : List (List Char) :=
  l.foldr
    (fun c acc =>
      match acc with
      | g :: gs => if c = sep then [] :: g :: gs else (c :: g) :: gs
      | [] => [[c]])
    [[]]

/-- String-level split on a single-character separator. -/
def jsSplit (sep : Char) (s : String) : List String :=
  (splitOnChar sep s.data).map String.mk

/-- Digit test, by code point. -/
def isDigitChar (c : Char) : Bool := decide (48 ≤ c.toNat ∧ c.toNat ≤ 57)

/-- Numeric value of a digit string (most significant first). -/
def digitsVal (ds : List Char) : Nat :=
  ds.foldl (fun a c => a * 10 + (c.toNat - 48)) 0

/-- Left-pad a character list with `'0'` to width `w`, modelling
`String.prototype.padStart(w, "0")`. -/
def padZero (w : Nat) (l : List Char) : List Char :=
  List.replicate (w - l.length) '0' ++ l

/-- Decimal rendering of a `Nat` zero-padded to width `w` (as used by the
`date-fns` format string `yyyy-MM-dd`). -/
def fmtNat (w n : Nat) : List Char := padZero w (Nat.toDigits 10 n)

/-!
Embedding of `src/etl/preprocess.ts` (schema-unified variant).
-/

/-- Function `detectSeparator` from `src/etl/preprocess.ts`: chosen from the file
NAME alone — `";"` for a `.tsv` extension, `","` otherwise (including the
unknown-extension default). -/
def detectSeparator (filePath : String) : Char :=
  if (".tsv").data.isSuffixOf filePath.data then ';'
  else if (".csv").data.isSuffixOf filePath.data then ','
  else ','

/-- An input file: its name and its lines (the source reads files as
text and the csv parsers split them into lines; quoting is not modelled
because no input considered here contains quoted fields). -/
structure SrcFile where
  name : String
  lines : List String
  deriving DecidableEq

/-- The raw header labels of a file, as the schema-unified pipeline reads
them: the first line split on the extension-derived separator. -/
def fileRawHeaders (f : SrcFile) : List String :=
  jsSplit (detectSeparator f.name) (f.lines.headD "")

/-- The standardized header keys of one file (`csv-parser`'s `mapHeaders`
hook applies `standardizeHeader` to every label). -/
def fileStdHeaders (f : SrcFile) : List String :=
  (fileRawHeaders f).map standardizeHeader

/-- Function `collectUniqueHeaders` from `src/etl/preprocess.ts`: accumulate every
standardized header of every file into a set, then return it sorted
(`Array.from(allHeaders).sort()`).  The set is modelled by `dedup`
(insertion order is irrelevant after sorting) and the sort by insertion
sort under the code-point order `headerLe`. -/
def collectUniqueHeaders (files : List SrcFile) : List String :=
  List.insertionSort headerLe (files.flatMap fileStdHeaders).dedup

/-!
`normalizeDate` calls `new Date(dateString)` followed by the `date-fns`
`format(parsedDate, "yyyy-MM-dd")`, which renders the instant in the
machine's LOCAL timezone.  The model reproduces the ECMAScript `Date`
parser on the two date shapes present in this repository's data:

* ISO `YYYY-MM-DD` strings are parsed as UTC midnight; formatting them in
  a local zone `tz` minutes from UTC therefore yields the PREVIOUS calendar
  day whenever `tz < 0` (any real zone satisfies `-1440 < tz < 1440`, so no
  other shift can occur);
* slash-separated `M/D/YYYY` (or `MM/DD/YYYY`) strings are parsed by the
  legacy parser as local midnight with the FIRST component as the month,
  so formatting returns that month/day unchanged for every zone.

Every other string is treated as unparseable (`Invalid Date`), for which
the source returns `""`.
-/

/-- Gregorian leap-year test. -/
def isLeapYear (y : Nat) : Bool :=
  y % 4 = 0 && (y % 100 ≠ 0 || y % 400 = 0)

/-- Days in a month. -/
def daysInMonth (y m : Nat) : Nat :=
  if m = 2 then (if isLeapYear y then 29 else 28)
  else if m = 4 ∨ m = 6 ∨ m = 9 ∨ m = 11 then 30
  else 31

/-- The calendar day before `(y, m, d)`. -/
def prevDay (y m d : Nat) : Nat × Nat × Nat :=
  if 2 ≤ d then (y, m, d - 1)
  else if 2 ≤ m then (y, m - 1, daysInMonth y (m - 1))
  else (y - 1, 12, 31)

/-- Parse an ISO `YYYY-MM-DD` date (the shape `new Date` reads as UTC
midnight), validating month and day ranges as V8 does for ISO strings. -/
def parseIsoDate (s : String) : Option (Nat × Nat × Nat) :=
  match s.data with
  | [y1, y2, y3, y4, '-', m1, m2, '-', d1, d2] =>
    if isDigitChar y1 && isDigitChar y2 && isDigitChar y3 && isDigitChar y4 &&
        isDigitChar m1 && isDigitChar m2 && isDigitChar d1 && isDigitChar d2 then
      let y := digitsVal [y1, y2, y3, y4]
      let m := digitsVal [m1, m2]
      let d := digitsVal [d1, d2]
      if 1 ≤ m ∧ m ≤ 12 ∧ 1 ≤ d ∧ d ≤ daysInMonth y m then some (y, m, d)
      else none
    else none
  | _ => none

/-- Parse a slash-separated date the way the V8 legacy parser does:
`month/day/four-digit-year`, month first.  Returns `(m, d, y)`. -/
def parseSlashedDate (s : String) : Option (Nat × Nat × Nat) :=
  match jsSplit '/' s with
  | [ms, ds, ys] =>
    if ms.data ≠ [] && ds.data ≠ [] && ms.data.length ≤ 2 &&
        ds.data.length ≤ 2 && ys.data.length = 4 &&
        ms.data.all isDigitChar && ds.data.all isDigitChar &&
        ys.data.all isDigitChar then
      let m := digitsVal ms.data
      let d := digitsVal ds.data
      let y := digitsVal ys.data
      if 1 ≤ m ∧ m ≤ 12 ∧ 1 ≤ d ∧ d ≤ daysInMonth y m then some (m, d, y)
      else none
    else none
  | _ => none

/-- Render `(y, m, d)` as `yyyy-MM-dd`. -/
def fmtYmd (p : Nat × Nat × Nat) : String :=
  String.mk (fmtNat 4 p.1 ++ ['-'] ++ fmtNat 2 p.2.1 ++ ['-'] ++ fmtNat 2 p.2.2)

/-- Function `normalizeDate` from `src/etl/preprocess.ts`, in a machine timezone
`tz` minutes east of UTC (see the module comment above): empty input and
unparseable input yield `""`; an ISO date formats to the previous day
when `tz < 0`; a slashed date formats with its first component as the
month. -/
def normalizeDate (tz : Int) (s : String) : String :=
  if s = "" then ""
  else
    match parseIsoDate s with
    | some (y, m, d) => if tz < 0 then fmtYmd (prevDay y m d) else fmtYmd (y, m, d)
    | none =>
      match parseSlashedDate s with
      | some (m, d, y) => fmtYmd (y, m, d)
      | none => ""

/-- Function `normalizeTime` from `src/etl/preprocess.ts`: empty input yields
`""`; otherwise split on `":"`; with fewer than two parts yield `""`;
otherwise zero-pad hour and minute to two digits, and the third part to
two digits defaulting to `"00"` when absent or empty. -/
def normalizeTime (s : String) : String :=
  if s = "" then ""
  else
    let parts := jsSplit ':' s
    if 2 ≤ parts.length then
      let hours := padZero 2 (parts.getD 0 "").data
      let minutes := padZero 2 (parts.getD 1 "").data
      let seconds :=
        if (parts.getD 2 "").data = [] then ('0' :: ['0'])
        else padZero 2 (parts.getD 2 "").data
      String.mk (hours ++ [':'] ++ minutes ++ [':'] ++ seconds)
    else ""

/-!
`parseNumericField` calls `parseFloat` after replacing the first comma
with a dot.  JavaScript numbers are modelled by `JSNum`: a finite value
is an exact rational (rounding of in-range values to the nearest IEEE-754
double is not modelled — every value the theorems evaluate is exactly
representable), `NaN` is represented by `parseFloat` returning `none`,
and the two ways `parseFloat` produces an infinity are both modelled
exactly: the syntactic `Infinity` literal, and decimal literals whose
value overflows the double range.  Under round-to-nearest-ties-to-even, a
positive real rounds to `Infinity` if and only if it is at least
`2^1024 - 2^970` — the midpoint between the largest finite double
`(2 - 2^-52) * 2^1023` and `2^1024`, the tie itself rounding to the even
`2^1024` — so the finite/infinite split below is the double-precision one
(e.g. `parseFloat("1e999")` is `Infinity`).  The overflow test is carried
out on the literal's integer mantissa and decimal exponent with `Nat`
arithmetic, keeping it kernel-computable.
-/

/-- A JavaScript number produced by `parseFloat`: an (idealised exact)
finite value or a signed infinity. -/
inductive JSNum where
  | num (q : ℚ)
  | posInf
  | negInf
  deriving DecidableEq

/-- Finiteness of a `JSNum`. -/
def JSNum.isFinite : JSNum → Bool
  | .num _ => true
  | .posInf => false
  | .negInf => false

/-- Strip one leading sign character, returning whether it was `'-'`. -/
def stripSign : List Char → Bool × List Char
  | '-' :: t => (true, t)
  | '+' :: t => (false, t)
  | l => (false, l)

/-- The double-precision overflow threshold `2^1024 - 2^970`: a decimal
literal's magnitude rounds to `Infinity` exactly when it reaches this
value (see the module comment above). -/
def overflowThreshold : Nat := 2 ^ 1024 - 2 ^ 970

/-- Does the decimal magnitude `m * 10^e` (integer mantissa `m`, decimal
exponent `e`) overflow the double range?  Stated with `Nat` arithmetic on
either side of the scale so the kernel can evaluate it. -/
def decimalOverflows (m : Nat) (e : Int) : Bool :=
  if 0 ≤ e then decide (overflowThreshold ≤ m * 10 ^ e.toNat)
  else decide (overflowThreshold * 10 ^ (-e).toNat ≤ m)

/-- The exact rational `m * 10^e` denoted by a decimal literal with
integer mantissa `m` and decimal exponent `e`. -/
def decExact (m : Nat) (e : Int) : ℚ := (m : ℚ) * (10 : ℚ) ^ e

/-- Parse the longest decimal-literal prefix (digits, optional fraction,
optional exponent), as `parseFloat` does after sign handling, returning
its integer mantissa (the integer and fraction digits run together) and
decimal exponent (the written exponent minus the number of fraction
digits); `none` when no digit is found (`NaN`). -/
def parseDecimalPrefix (l : List Char) : Option (Nat × Int) :=
  let ds := l.takeWhile isDigitChar
  let r1 := l.dropWhile isDigitChar
  let fr :=
    match r1 with
    | '.' :: t => (t.takeWhile isDigitChar, t.dropWhile isDigitChar)
    | _ => ([], r1)
  let fs := fr.1
  if ds = [] ∧ fs = [] then none
  else
    let e : Int :=
      match fr.2 with
      | c :: t =>
        if c = 'e' ∨ c = 'E' then
          let se :=
            match t with
            | '-' :: u => (true, u)
            | '+' :: u => (false, u)
            | _ => (false, t)
          let es := se.1
          let eds := se.2.takeWhile isDigitChar
          if eds = [] then 0
          else if es then -(digitsVal eds : Int) else (digitsVal eds : Int)
        else 0
      | [] => 0
    some (digitsVal (ds ++ fs), e - fs.length)

/-- Models `parseFloat`: skip leading whitespace, read an optional sign,
recognise a literal `Infinity` prefix, otherwise parse the longest
decimal-literal prefix, overflowing to a signed infinity at the double
threshold; `none` models `NaN`. -/
def parseFloat (s : String) : Option JSNum :=
  let p := stripSign (s.data.dropWhile isJsWhitespace)
  if ("Infinity").data.isPrefixOf p.2 then
    some (if p.1 then JSNum.negInf else JSNum.posInf)
  else
    match parseDecimalPrefix p.2 with
    | none => none
    | some me =>
      if decimalOverflows me.1 me.2 then
        some (if p.1 then JSNum.negInf else JSNum.posInf)
      else some (JSNum.num (if p.1 then -decExact me.1 me.2 else decExact me.1 me.2))

/-- Models `value.replace(",", ".")`: only the FIRST comma is replaced. -/
def replaceFirstComma : List Char → List Char
  | [] => []
  | c :: cs => if c = ',' then '.' :: cs else c :: replaceFirstComma cs

/-- Function `parseNumericField` from `src/etl/preprocess.ts`: empty input yields
`0`; otherwise replace the first comma with a dot and `parseFloat`; a
`NaN` result yields `0`, any other result (including infinities) is
returned as is. -/
def parseNumericField (value : String) : JSNum :=
  if value = "" then JSNum.num 0
  else
    match parseFloat (String.mk (replaceFirstComma value.data)) with
    | none => JSNum.num 0
    | some v => v

/-- Does a sign-stripped, whitespace-skipped, comma-replaced rendering of
the input start with the literal `Infinity`?  These inputs make
`parseFloat` take its syntactic-infinity branch inside
`parseNumericField`. -/
def infinityInput (value : String) : Bool :=
  ("Infinity").data.isPrefixOf
    (stripSign ((replaceFirstComma value.data).dropWhile isJsWhitespace)).2

/-- Does the input's decimal-literal prefix (after comma replacement,
whitespace skipping and sign stripping) overflow the double range?
These inputs make `parseFloat` return an infinity by overflow inside
`parseNumericField`. -/
def overflowInput (value : String) : Bool :=
  match parseDecimalPrefix
      (stripSign ((replaceFirstComma value.data).dropWhile isJsWhitespace)).2 with
  | some me => decimalOverflows me.1 me.2
  | none => false

/-- The fixed list of known incident-count header names plus the
`num_`-prefix / `_count`-suffix heuristic from `preprocessFile`. -/
def isNumericField (h : String) : Bool :=
  (["auto", "moto", "ciclom", "ciclista", "pedestre", "onibus", "caminhao",
      "viatura", "outros", "vitimas", "vitimasfatais"] : List String).contains h
    || ("num_").data.isPrefixOf h.data
    || ("_count").data.isSuffixOf h.data

/-- A value of an output record in the schema-unified variant: a string,
or a number for the fields coerced by `parseNumericField`. -/
inductive Value where
  | str (s : String)
  | num (n : JSNum)
  deriving DecidableEq

/-- Object lookup with the `row[header] || ""` default: an absent key and
a key holding the empty string both give `""`. -/
def jsGetD (row : List (String × String)) (k : String) : String :=
  (List.lookup k row).getD ""

/-- The value the schema-unified transform gives header `h` of one raw
row: look the key up with default `""`, normalize `data` / `hora` when
non-empty (string truthiness), then coerce the numeric-heuristic fields.
The three passes of the source mutate one object keyed by the
duplicate-free `allHeaders`, so they act independently per key. -/
def recordValue (tz : Int) (row : List (String × String)) (h : String) : Value :=
  let v0 := jsGetD row h
  let v1 :=
    if h = "data" ∧ v0 ≠ "" then normalizeDate tz v0
    else if h = "hora" ∧ v0 ≠ "" then normalizeTime v0
    else v0
  if isNumericField h then Value.num (parseNumericField v1) else Value.str v1

/-- The transform-generator body of `preprocessFile`
(`src/etl/preprocess.ts`): build the record over exactly `allHeaders`, in
order, from one raw row. -/
def transformRow (tz : Int) (allHeaders : List String)
    (row : List (String × String)) : List (String × Value) :=
  allHeaders.map (fun h => (h, recordValue tz row h))

/-- The raw rows of a file as `csv-parser` delivers them to the
transform: each data line split on the extension-derived separator and
keyed by the standardized headers (`mapHeaders`). -/
def fileDataRows (f : SrcFile) : List (List (String × String)) :=
  (f.lines.tail).map fun line =>
    (fileStdHeaders f).zip (jsSplit (detectSeparator f.name) line)

/-- All output records of one file in the schema-unified pipeline. -/
def fileRecords (tz : Int) (schema : List String) (f : SrcFile) :
    List (List (String × Value)) :=
  (fileDataRows f).map (transformRow tz schema)

/-- The whole schema-unified batch: the unified schema, then every
file's records against it. -/
def pipelineBatch (tz : Int) (files : List SrcFile) :
    List String × List (List (List (String × Value))) :=
  let schema := collectUniqueHeaders files
  (schema, files.map (fileRecords tz schema))

/-!
Embedding of the NDJSON preprocessing variant (`utils.ts` /
`preprocess` NDJSON source): `isValidTime`, `combineDateTime`,
`detectDelimiter`, and the four-field row transform with per-row error
isolation.
-/

/-- Function `isValidTime`: the regexp
`^([01]\d|2[0-3]):([0-5]\d):([0-5]\d)$` — exactly `HH:mm:ss`, hour
`00`–`23`, minute and second `00`–`59`. -/
def isValidTime (s : String) : Bool :=
  match s.data with
  | [h1, h2, c1, m1, m2, c2, s1, s2] =>
    c1 == ':' && c2 == ':' &&
    (((h1 == '0' || h1 == '1') && isDigitChar h2) ||
      (h1 == '2' && decide (48 ≤ h2.toNat ∧ h2.toNat ≤ 51))) &&
    decide (48 ≤ m1.toNat ∧ m1.toNat ≤ 53) && isDigitChar m2 &&
    decide (48 ≤ s1.toNat ∧ s1.toNat ≤ 53) && isDigitChar s2
  | _ => false

/-- Function `combineDateTime(dateString, timeString?)`: the date part is the text
before the first `"T"`, trimmed; the time part is the text before the
first `"."` of `timeString`, trimmed, provided `timeString` is present,
non-empty (truthiness) and that cleaned text passes `isValidTime`;
otherwise the fallback `"00:00:00"` (with a logged warning, not
modelled).  Output: `date ++ "T" ++ time ++ "-03:00"`. -/
def combineDateTime (dateString : String) (timeString : Option String) : String :=
  let cleanedDate := jsTrim ((jsSplit 'T' dateString).headD "")
  let cleanedTime :=
    match timeString with
    | some ts =>
      if ts ≠ "" ∧ isValidTime (jsTrim ((jsSplit '.' ts).headD "")) = true then
        jsTrim ((jsSplit '.' ts).headD "")
      else "00:00:00"
    | none => "00:00:00"
  cleanedDate ++ "T" ++ cleanedTime ++ "-03:00"

/-- The first line of a file's content, as
`fs.readFileSync(...).split("\n")[0]` reads it (the empty string for an
empty file). -/
def jsFirstLine (content : String) : String :=
  (jsSplit '\n' content).headD ""

/-- Function `detectDelimiter`: inspect only the first line of the content; return
the first of tab, semicolon, comma present in it, and comma (with a
logged warning) when none is. -/
def detectDelimiter (content : String) : Char :=
  let firstLine := jsFirstLine content
  if firstLine.data.contains '\t' then '\t'
  else if firstLine.data.contains ';' then ';'
  else if firstLine.data.contains ',' then ','
  else ','

/-- JSON string escaping for `JSON.stringify` on the plain string values
at hand: backslash, double quote, and ASCII control characters. -/
def jsonEscapeChar (c : Char) : List Char :=
  if c = '\\' then ['\\', '\\']
  else if c = '"' then ['\\', '"']
  else if c = '\n' then ['\\', 'n']
  else if c = '\t' then ['\\', 't']
  else if c = '\r' then ['\\', 'r']
  else if c.toNat = 8 then ['\\', 'b']
  else if c.toNat = 12 then ['\\', 'f']
  else if c.toNat < 32 then
    ['\\', 'u', '0', '0'] ++ fmtNat 2 c.toNat
  else [c]

/-- A JSON string literal for `s`. -/
def jsonString (s : String) : String :=
  String.mk ('"' :: s.data.flatMap jsonEscapeChar ++ ['"'])

/-- Model of `JSON.stringify` on a flat object with string values, keys in
insertion order. -/
def jsonStringifyPairs (l : List (String × String)) : String :=
  String.mk
    ('\x7b' :: List.intercalate [',']
        (l.map fun kv => (jsonString kv.1 ++ ":" ++ jsonString kv.2).data) ++
      ['\x7d'])

/-- The five output-consumed key names (the `tipo` synonyms `tipo`,
`natureza_acidente`, `natureza` count as one consumed field) excluded
from `meta`. -/
def consumedKeys : List String :=
  ["tipo", "natureza_acidente", "natureza", "situacao", "data", "hora"]

/-- The raw entries serialized into `meta`: every entry of the row whose
key is not one of the consumed keys, in row order
(`Object.entries(row).filter(...)`). -/
def metaEntries (row : List (String × String)) : List (String × String) :=
  row.filter fun kv => !(consumedKeys.contains kv.1)

/-- One output record of the NDJSON variant. -/
structure NdRecord where
  tipo : String
  situacao : String
  datahora : String
  meta : String
  deriving DecidableEq

/-- JavaScript `a || b` on strings: `a` when non-empty, else `b`. -/
def jsOrElse (a b : String) : String := if a = "" then b else a

/-- The row transform of the NDJSON `preprocessFile`: `tipo` is the first
truthy of `natureza_acidente`, `natureza`, `tipo` (else `""`, with a
logged warning); `situacao`, `data`, `hora` default to `""`; `datahora`
combines `data` and `hora`; `meta` serializes the remaining entries. -/
def transformNdRow (row : List (String × String)) : NdRecord :=
  let tipo :=
    jsOrElse (jsGetD row "natureza_acidente")
      (jsOrElse (jsGetD row "natureza") (jsGetD row "tipo"))
  let situacao := jsGetD row "situacao"
  let data := jsGetD row "data"
  let hora := jsGetD row "hora"
  let datahora := combineDateTime data (some hora)
  let meta := jsonStringifyPairs (metaEntries row)
  ⟨tipo, situacao, datahora, meta⟩

/-- The NDJSON output line for one record: `JSON.stringify` of the
four-field object followed by a newline. -/
def ndjsonLine (rec : NdRecord) : String :=
  jsonStringifyPairs
    [("tipo", rec.tipo), ("situacao", rec.situacao),
      ("datahora", rec.datahora), ("meta", rec.meta)] ++ "\n"

/-- The NDJSON transform stream from row `n` on (0-based; the counter is
incremented before each row is built, so row `i` is reported as line
`i + 1`): a row whose build succeeds contributes its output line; a row
whose build raises is logged with its 1-based line number and its
content, contributes nothing, and processing continues.  Exceptions are
modelled by the builder returning `Except.error`. -/
def processNdFrom (build : List (String × String) → Except String NdRecord) :
    Nat → List (List (String × String)) →
      List String × List (Nat × List (String × String))
  | _, [] => ([], [])
  | n, r :: rs =>
    let rest := processNdFrom build (n + 1) rs
    match build r with
    | .ok rec => (ndjsonLine rec :: rest.1, rest.2)
    | .error _ => (rest.1, (n + 1, r) :: rest.2)

/-- Process a whole file's rows: output lines and the error log
(1-based line number with the offending row). -/
def processNdRows (build : List (String × String) → Except String NdRecord)
    (rows : List (List (String × String))) :
    List String × List (Nat × List (String × String)) :=
  processNdFrom build 0 rows

/-!
Spec-side definitions.  These follow the specification's words (not the
source) and exist to be compared with the source-derived definitions in
refinement claims.
-/

/-- Modelled from the spec: "the text of dateText before any 'T'
(trimmed)". -/
def specDatePortion (d : String) : String :=
  jsTrim (String.mk (d.data.takeWhile fun c => !(c == 'T')))

/-- Modelled from the spec: the time used by the combiner — "timeText
with any sub-second component stripped (text before '.') and trimmed if
that passes isValidTime ..., and 00:00:00 otherwise". -/
def specTimePortion (t : Option String) : String :=
  match t with
  | none => "00:00:00"
  | some ts =>
    let cleaned := jsTrim (String.mk (ts.data.takeWhile fun c => !(c == '.')))
    if ts ≠ "" ∧ isValidTime cleaned = true then cleaned else "00:00:00"

/-- Modelled from the spec: `combineDateTime` as the claim words it,
producing `{date}T{time}-03:00`. -/
def specCombineDateTime (d : String) (t : Option String) : String :=
  specDatePortion d ++ "T" ++ specTimePortion t ++ "-03:00"

/-- Modelled from the spec: the delimiter the claim says a first line
determines — "checking in fixed priority order tab, then semicolon, then
comma and returning the first delimiter present anywhere in that line",
comma if none. -/
def specLineDelimiter (firstLine : String) : Char :=
  if firstLine.data.contains '\t' then '\t'
  else if firstLine.data.contains ';' then ';'
  else if firstLine.data.contains ',' then ','
  else ','

/-!
Concrete input files used by the settled claims.
-/

/-- File A of the spec's end-to-end scenario (a comma-separated `.csv`,
so the extension-based separator matches its content). -/
def fileA : SrcFile :=
  ⟨"sinistros_a.csv", ["Data,Hora,Tipo", "01/03/2024,14:5,Colisão"]⟩

/-- File B of the spec's end-to-end scenario.  Its header line is
semicolon-separated; the `.tsv` extension makes `detectSeparator` return
`';'`, so it parses as the scenario intends. -/
def fileB : SrcFile :=
  ⟨"sinistros_b.tsv", ["data;situacao", "2024-03-02;Resolvido"]⟩

/-- A file contributing the numeric-heuristic header `vitimas` to a
batch's unified schema. -/
def cfileA : SrcFile :=
  ⟨"sinistros_c1.csv", ["vitimas,situacao", "2,ok"]⟩

/-- A file lacking the `vitimas` column; its rows receive that key from
the unified schema. -/
def cfileB : SrcFile :=
  ⟨"sinistros_c2.csv", ["situacao", "pendente"]⟩

/-- A `.csv`-named file whose content is semicolon-delimited: the
extension-based separator and the content-based delimiter disagree on
it. -/
def c6file : SrcFile :=
  ⟨"sinistros_d.csv", ["a;b", "1;2"]⟩

/-- The full text content of a file, as `fs.readFileSync` returns it. -/
def fileContent (f : SrcFile) : String :=
  String.mk (List.intercalate ['\n'] (f.lines.map String.data))

/-!
Helper lemmas.
-/

theorem data_mk (l : List Char) : (String.mk l).data = l := rfl

theorem allowed_not_ws {c : Char} (h : allowedHeaderChar c = true) :
    isJsWhitespace c = false := by
  simp only [allowedHeaderChar, decide_eq_true_eq] at h
  simp only [isJsWhitespace, decide_eq_false_iff_not]
  omega

theorem allowed_lower_fix {c : Char} (h : allowedHeaderChar c = true) :
    jsLowerChar c = c := by
  simp only [allowedHeaderChar, decide_eq_true_eq] at h
  unfold jsLowerChar
  rw [if_neg]
  omega

theorem dropWhile_of_forall_false {p : α → Bool} {l : List α}
    (h : ∀ c ∈ l, p c = false) : l.dropWhile p = l := by
  cases l with
  | nil => rfl
  | cons a as => simp [List.dropWhile_cons, h a (List.mem_cons_self a as)]

theorem jsTrimList_of_forall {l : List Char}
    (h : ∀ c ∈ l, isJsWhitespace c = false) : jsTrimList l = l := by
  unfold jsTrimList
  rw [dropWhile_of_forall_false h,
    dropWhile_of_forall_false (fun c hc => h c (List.mem_reverse.mp hc)),
    List.reverse_reverse]

theorem collapseWsAux_of_forall {l : List Char} (b : Bool)
    (h : ∀ c ∈ l, isJsWhitespace c = false) : collapseWsAux b l = l := by
  induction l generalizing b with
  | nil => rfl
  | cons a as ih =>
    simp only [collapseWsAux, h a (List.mem_cons_self a as), Bool.false_eq_true,
      if_false, List.cons.injEq, true_and, ite_false]
    exact ih false fun c hc => h c (List.mem_cons_of_mem a hc)

theorem mem_stdCore_allowed {l : List Char} {c : Char}
    (hc : c ∈ stdCore l) : allowedHeaderChar c = true :=
  (List.mem_filter.mp hc).2

theorem stdCore_of_allowed {l : List Char}
    (hall : ∀ c ∈ l, allowedHeaderChar c = true) : stdCore l = l := by
  unfold stdCore
  rw [jsTrimList_of_forall (fun c hc => allowed_not_ws (hall c hc))]
  rw [List.map_congr_left (fun c hc => allowed_lower_fix (hall c hc)), List.map_id']
  unfold collapseWhitespaceRuns
  rw [collapseWsAux_of_forall false (fun c hc => allowed_not_ws (hall c hc))]
  rw [List.filter_eq_self.mpr hall]

theorem standardizeHeader_idem (s : String) :
    standardizeHeader (standardizeHeader s) = standardizeHeader s := by
  unfold standardizeHeader
  rw [data_mk, stdCore_of_allowed fun c hc => mem_stdCore_allowed hc]

theorem transformRow_keys (tz : Int) (allHeaders : List String)
    (row : List (String × String)) :
    (transformRow tz allHeaders row).map Prod.fst = allHeaders := by
  simp [transformRow, List.map_map, Function.comp_def]

theorem lookup_map_self {g : String → Value} {S : List String} {h : String}
    (hm : h ∈ S) : List.lookup h (S.map fun x => (x, g x)) = some (g h) := by
  induction S with
  | nil => cases hm
  | cons a as ih =>
    rcases List.mem_cons.mp hm with rfl | hmem
    · simp [List.lookup]
    · by_cases hha : h = a
      · subst hha; simp [List.lookup]
      · have hba : (h == a) = false := beq_eq_false_iff_ne.mpr hha
        simp only [List.map_cons, List.lookup, hba]
        exact ih hmem

theorem lookup_eq_none_of_not_mem {row : List (String × String)} {h : String}
    (hm : h ∉ row.map Prod.fst) : List.lookup h row = none := by
  induction row with
  | nil => rfl
  | cons a as ih =>
    simp only [List.map_cons, List.mem_cons, not_or] at hm
    have hba : (h == a.1) = false := beq_eq_false_iff_ne.mpr hm.1
    simp only [List.lookup, hba]
    exact ih hm.2

theorem splitOnChar_ne_nil (sep : Char) (l : List Char) :
    splitOnChar sep l ≠ [] := by
  induction l with
  | nil => simp [splitOnChar]
  | cons c cs ih =>
    have : splitOnChar sep (c :: cs) =
        (match splitOnChar sep cs with
          | g :: gs => if c = sep then [] :: g :: gs else (c :: g) :: gs
          | [] => [[c]]) := rfl
    rw [this]
    cases hs : splitOnChar sep cs with
    | nil => simp
    | cons g gs => by_cases hc : c = sep <;> simp [hc]

theorem splitOnChar_headD (sep : Char) (l : List Char) :
    (splitOnChar sep l).headD [] = l.takeWhile (fun c => !(c == sep)) := by
  induction l with
  | nil => rfl
  | cons c cs ih =>
    have hstep : splitOnChar sep (c :: cs) =
        (match splitOnChar sep cs with
          | g :: gs => if c = sep then [] :: g :: gs else (c :: g) :: gs
          | [] => [[c]]) := rfl
    rw [hstep]
    cases hs : splitOnChar sep cs with
    | nil => exact absurd hs (splitOnChar_ne_nil sep cs)
    | cons g gs =>
      rw [hs] at ih
      simp only [List.headD_cons] at ih
      by_cases hc : c = sep
      · simp [hc, List.takeWhile_cons]
      · have hb : (c == sep) = false := beq_eq_false_iff_ne.mpr hc
        simp [if_neg hc, List.takeWhile_cons, hb, ih]

theorem jsSplit_headD (sep : Char) (s : String) :
    (jsSplit sep s).headD "" = String.mk (s.data.takeWhile fun c => !(c == sep)) := by
  unfold jsSplit
  cases hs : splitOnChar sep s.data with
  | nil => exact absurd hs (splitOnChar_ne_nil sep s.data)
  | cons g gs =>
    have := splitOnChar_headD sep s.data
    rw [hs] at this
    simp only [List.headD_cons] at this
    simp [this]

theorem combineDateTime_eq_spec (d : String) (t : Option String) :
    combineDateTime d t = specCombineDateTime d t := by
  cases t with
  | none =>
    simp only [combineDateTime, specCombineDateTime, specDatePortion,
      specTimePortion]
    rw [jsSplit_headD]
  | some ts =>
    simp only [combineDateTime, specCombineDateTime, specDatePortion,
      specTimePortion]
    rw [jsSplit_headD, jsSplit_headD]

theorem parseNumericField_finite {s : String} (h : infinityInput s = false)
    (hov : overflowInput s = false) : (parseNumericField s).isFinite = true := by
  unfold parseNumericField
  by_cases hs : s = ""
  · simp [hs, JSNum.isFinite]
  · unfold infinityInput at h
    unfold overflowInput at hov
    simp only [if_neg hs, parseFloat, data_mk]
    rw [h]
    simp only [Bool.false_eq_true, if_false, ite_false]
    cases hp : parseDecimalPrefix
        (stripSign ((replaceFirstComma s.data).dropWhile isJsWhitespace)).2 with
    | none => simp [hp, JSNum.isFinite]
    | some me =>
      rw [hp] at hov
      have hov' : decimalOverflows me.1 me.2 = false := hov
      simp [hp, hov', JSNum.isFinite]

theorem decimalOverflows_1e999 : decimalOverflows 1 999 = true := by
  unfold decimalOverflows
  rw [if_pos (show (0 : Int) ≤ 999 by omega), decide_eq_true_eq]
  show overflowThreshold ≤ 1 * 10 ^ 999
  rw [Nat.one_mul]
  calc overflowThreshold ≤ 2 ^ 1024 := Nat.sub_le _ _
    _ ≤ 2 ^ 2997 := Nat.pow_le_pow_right (by omega) (by omega)
    _ = 8 ^ 999 := by rw [show (8 : Nat) = 2 ^ 3 from rfl, ← Nat.pow_mul]
    _ ≤ 10 ^ 999 := Nat.pow_le_pow_left (by omega) 999

theorem parseNumericField_1e999 : parseNumericField "1e999" = JSNum.posInf := by
  have h1 : parseFloat (String.mk (replaceFirstComma ("1e999").data)) =
      (if decimalOverflows 1 999 = true then some JSNum.posInf
        else some (JSNum.num (decExact 1 999))) := rfl
  unfold parseNumericField
  rw [if_neg (show ¬("1e999" : String) = "" by decide), h1, decimalOverflows_1e999]
  simp

theorem processNdFrom_spec
    (build : List (String × String) → Except String NdRecord)
    (rows : List (List (String × String))) (n : Nat) :
    processNdFrom build n rows =
      (rows.filterMap fun r =>
          match build r with
          | .ok rec => some (ndjsonLine rec)
          | .error _ => none,
        (rows.enumFrom (n + 1)).filterMap fun p =>
          match build p.2 with
          | .ok _ => none
          | .error _ => some p) := by
  induction rows generalizing n with
  | nil => rfl
  | cons r rs ih =>
    cases hb : build r with
    | ok rec => simp [processNdFrom, hb, ih, List.enumFrom_cons]
    | error e => simp [processNdFrom, hb, ih, List.enumFrom_cons]

theorem processNdFrom_length
    (build : List (String × String) → Except String NdRecord)
    (rows : List (List (String × String))) (n : Nat) :
    (processNdFrom build n rows).1.length + (processNdFrom build n rows).2.length =
      rows.length := by
  induction rows generalizing n with
  | nil => rfl
  | cons r rs ih =>
    cases hb : build r with
    | ok rec =>
      simp only [processNdFrom, hb, List.length_cons]
      have := ih (n + 1)
      omega
    | error e =>
      simp only [processNdFrom, hb, List.length_cons]
      have := ih (n + 1)
      omega

theorem mem_collectUniqueHeaders {files : List SrcFile} {h : String} :
    h ∈ collectUniqueHeaders files ↔
      ∃ f ∈ files, ∃ lbl ∈ fileRawHeaders f, standardizeHeader lbl = h := by
  unfold collectUniqueHeaders
  rw [(List.perm_insertionSort headerLe _).mem_iff, List.mem_dedup,
    List.mem_flatMap]
  simp only [fileStdHeaders, List.mem_map]

theorem collectUniqueHeaders_sorted (files : List SrcFile) :
    List.Sorted headerLe (collectUniqueHeaders files) :=
  List.sorted_insertionSort headerLe _

theorem collectUniqueHeaders_nodup (files : List SrcFile) :
    (collectUniqueHeaders files).Nodup :=
  ((List.perm_insertionSort headerLe _).nodup_iff).mpr (List.nodup_dedup _)

theorem recordValue_of_absent (tz : Int) {row : List (String × String)}
    {h : String} (habs : h ∉ row.map Prod.fst) :
    recordValue tz row h =
      (if isNumericField h then Value.num (JSNum.num 0) else Value.str "") := by
  unfold recordValue
  have h0 : jsGetD row h = "" := by
    simp [jsGetD, lookup_eq_none_of_not_mem habs]
  simp [h0, show parseNumericField "" = JSNum.num 0 from rfl]

/-!
Claim theorems.
-/

/-- C1 (counterexample): the claim as stated is false — the batch
`[cfileA, cfileB]` puts the numeric-heuristic header `vitimas` into the
unified schema, and the emitted record for `cfileB`'s row (which lacks
that column) carries the number `0` for it, not the empty string. -/
theorem C1_counterexample :
    collectUniqueHeaders [cfileA, cfileB] = ["situacao", "vitimas"]
    ∧ fileRecords 0 (collectUniqueHeaders [cfileA, cfileB]) cfileB =
        [[("situacao", Value.str "pendente"), ("vitimas", Value.num (JSNum.num 0))]]
    ∧ Value.num (JSNum.num 0) ≠ Value.str "" :=
  ⟨by decide, by decide, by decide⟩

/-- C1 (amended): for every batch, the unified schema is the sorted,
duplicate-free union of `standardizeHeader` over every column label of
every file, and every record emitted in schema-unified mode has exactly
the schema's keys; a key absent from a particular file's row maps to the
empty string — except a key matching the numeric-field heuristic, which
maps to the number `0`. -/
theorem C1_amended (tz : Int) (files : List SrcFile)
    (row : List (String × String)) (h : String) :
    List.Sorted headerLe (collectUniqueHeaders files)
    ∧ (collectUniqueHeaders files).Nodup
    ∧ (h ∈ collectUniqueHeaders files ↔
        ∃ f ∈ files, ∃ lbl ∈ fileRawHeaders f, standardizeHeader lbl = h)
    ∧ (transformRow tz (collectUniqueHeaders files) row).map Prod.fst =
        collectUniqueHeaders files
    ∧ (h ∈ collectUniqueHeaders files → h ∉ row.map Prod.fst →
        List.lookup h (transformRow tz (collectUniqueHeaders files) row) =
          some (if isNumericField h then Value.num (JSNum.num 0)
            else Value.str "")) := by
  refine ⟨collectUniqueHeaders_sorted files, collectUniqueHeaders_nodup files,
    mem_collectUniqueHeaders, transformRow_keys tz _ row, fun hmem habs => ?_⟩
  unfold transformRow
  rw [lookup_map_self hmem, recordValue_of_absent tz habs]

/-- C1 (witness for the amended claim): in the `[cfileA, cfileB]` batch,
the key `vitimas` is absent from `cfileB`'s row and looks up to the
numeric default. -/
theorem C1_amended_witness :
    List.lookup "vitimas"
        (transformRow 0 (collectUniqueHeaders [cfileA, cfileB])
          [("situacao", "ok")]) =
      some (if isNumericField "vitimas" then Value.num (JSNum.num 0)
        else Value.str "") :=
  (C1_amended 0 [cfileA, cfileB] [("situacao", "ok")] "vitimas").2.2.2.2
    (by decide) (by decide)

/-- C2 (code-bug evidence): in the end-to-end scenario the unified schema
and every field match the claim EXCEPT file A's `data`: the ECMAScript
`Date` parser reads the slashed Brazilian date `"01/03/2024"` month-first
(in every timezone), so the code emits `"2024-01-03"` where the spec's
scenario expects `"2024-03-01"`. -/
theorem C2_dateParsingBug :
    (∀ tz : Int, normalizeDate tz "01/03/2024" = "2024-01-03")
    ∧ collectUniqueHeaders [fileA, fileB] = ["data", "hora", "situacao", "tipo"]
    ∧ fileRecords 0 (collectUniqueHeaders [fileA, fileB]) fileA =
        [[("data", Value.str "2024-01-03"), ("hora", Value.str "14:05:00"),
          ("situacao", Value.str ""), ("tipo", Value.str "Colisão")]]
    ∧ fileRecords 0 (collectUniqueHeaders [fileA, fileB]) fileB =
        [[("data", Value.str "2024-03-02"), ("hora", Value.str ""),
          ("situacao", Value.str "Resolvido"), ("tipo", Value.str "")]]
    ∧ ("2024-01-03" : String) ≠ "2024-03-01" :=
  ⟨fun _ => rfl, by decide, by decide, by decide, by decide⟩

/-- C3 (counterexample): `parseNumericField` does not always return a
finite number — `parseFloat` recognises the `Infinity` literal and the
code returns it unchanged (`isNaN(Infinity)` is false). -/
theorem C3_counterexample :
    parseNumericField "Infinity" = JSNum.posInf
    ∧ JSNum.isFinite JSNum.posInf = false :=
  ⟨by decide, rfl⟩

/-- C3 (amended): `parseNumericField` never raises and always returns a
number, finite for every input that neither spells an `Infinity` literal
(after comma replacement, whitespace skipping and sign stripping) nor
carries a decimal literal whose magnitude overflows the IEEE-754 double
range — `"1e999"` overflows and yields `Infinity`; the empty string
yields `0`, `"1,5"` yields `1.5`, `"abc"` yields `0`. -/
theorem C3_amended :
    (∀ s : String, infinityInput s = false → overflowInput s = false →
        (parseNumericField s).isFinite = true)
    ∧ parseNumericField "1e999" = JSNum.posInf
    ∧ parseNumericField "" = JSNum.num 0
    ∧ parseNumericField "1,5" = JSNum.num (3 / 2)
    ∧ parseNumericField "abc" = JSNum.num 0 := by
  refine ⟨fun s h hov => parseNumericField_finite h hov, parseNumericField_1e999,
    rfl, ?_, rfl⟩
  have h1 : parseNumericField "1,5" = JSNum.num (decExact 15 (-1)) := rfl
  rw [h1]
  have h2 : decExact 15 (-1) = 3 / 2 := by
    unfold decExact
    rw [zpow_neg, zpow_one]
    norm_num
  rw [h2]

/-- C3 (witness): `"abc"` is neither an infinity input nor an overflowing
one, and it parses to a finite number. -/
theorem C3_amended_witness :
    infinityInput "abc" = false ∧ overflowInput "abc" = false
    ∧ (parseNumericField "abc").isFinite = true :=
  ⟨by decide, by decide, C3_amended.1 "abc" (by decide) (by decide)⟩

/-- C4: `combineDateTime` equals the spec's formula — the trimmed text
before any `T` of the date, then the cleaned time if it passes
`isValidTime` and `"00:00:00"` otherwise, then the fixed `-03:00`
offset — including on the two concrete examples. -/
theorem C4_combineDateTime :
    (∀ (d : String) (t : Option String),
        combineDateTime d t = specCombineDateTime d t)
    ∧ combineDateTime "2024-03-01" (some "14:30:00") =
        "2024-03-01T14:30:00-03:00"
    ∧ combineDateTime "2024-03-01T10:00:00Z" (some "bad-time") =
        "2024-03-01T00:00:00-03:00" :=
  ⟨combineDateTime_eq_spec, by decide, by decide⟩

/-- C5: `detectDelimiter` is determined solely by the first line, equals
the fixed tab/semicolon/comma priority check on that line, returns tab on
`"a\tb;c"`, and returns comma on an empty file. -/
theorem C5_detectDelimiter :
    (∀ c1 c2 : String, jsFirstLine c1 = jsFirstLine c2 →
        detectDelimiter c1 = detectDelimiter c2)
    ∧ (∀ c : String, detectDelimiter c = specLineDelimiter (jsFirstLine c))
    ∧ detectDelimiter "a\tb;c" = '\t'
    ∧ detectDelimiter "" = ',' := by
  refine ⟨fun c1 c2 h => ?_, fun c => rfl, by decide, by decide⟩
  show specLineDelimiter (jsFirstLine c1) = specLineDelimiter (jsFirstLine c2)
  rw [h]

/-- C5 (witness): two contents sharing the first line `"a;b"` get the
same delimiter. -/
theorem C5_detectDelimiter_witness :
    jsFirstLine "a;b\nxyz" = jsFirstLine "a;b"
    ∧ detectDelimiter "a;b\nxyz" = detectDelimiter "a;b" :=
  ⟨by decide, C5_detectDelimiter.1 "a;b\nxyz" "a;b" (by decide)⟩

/-- C6 (counterexample): the schema-unified pipeline's separator for the
`.csv`-named, semicolon-delimited file `c6file` is the extension-derived
comma, while the content-based detection of §4.1 yields a semicolon; the
unified schema accordingly contains the fused label `"ab"` instead of
`"a"` and `"b"`. -/
theorem C6_counterexample :
    detectSeparator c6file.name = ','
    ∧ detectDelimiter (fileContent c6file) = ';'
    ∧ (',' : Char) ≠ ';'
    ∧ collectUniqueHeaders [c6file] = ["ab"]
    ∧ (jsSplit (detectDelimiter (fileContent c6file))
          (c6file.lines.headD "")).map standardizeHeader = ["a", "b"] :=
  ⟨by decide, by decide, by decide, by decide, by decide⟩

/-- C6 (amended): in the schema-unified pipeline the delimiter used for
every file — in header collection and in row parsing alike — is
`detectSeparator`, a function of the file extension alone (`';'` for
`.tsv`, `','` otherwise), which can disagree with the content-based
first-line detection of §4.1. -/
theorem C6_amended :
    (∀ name : String,
        detectSeparator name =
          if (".tsv").data.isSuffixOf name.data then ';' else ',')
    ∧ (∀ f : SrcFile,
        fileRawHeaders f = jsSplit (detectSeparator f.name) (f.lines.headD "")
        ∧ fileDataRows f = (f.lines.tail).map fun line =>
            (fileStdHeaders f).zip (jsSplit (detectSeparator f.name) line))
    ∧ detectSeparator c6file.name ≠ detectDelimiter (fileContent c6file) := by
  refine ⟨fun name => ?_, fun f => ⟨rfl, rfl⟩, by decide⟩
  unfold detectSeparator
  by_cases h : (".tsv").data.isSuffixOf name.data = true
  · simp [h]
  · simp only [Bool.not_eq_true] at h
    simp [h]

/-- C7: `standardizeHeader` is total and deterministic (it is a function),
maps the empty string to the empty string, performs the trim /
lowercase / collapse-whitespace / strip normalization (illustrated on a
concrete label), and is idempotent. -/
theorem C7_standardizeHeader :
    (∀ s : String, standardizeHeader (standardizeHeader s) = standardizeHeader s)
    ∧ standardizeHeader "" = ""
    ∧ standardizeHeader "  Data  da Hora! " = "data_da_hora" :=
  ⟨standardizeHeader_idem, rfl, by decide⟩

/-- C8: in the NDJSON variant, `meta` is the JSON serialization of
exactly the raw entries of the row other than the consumed keys (`tipo`
and its synonyms `natureza_acidente` and `natureza`, `situacao`, `data`,
`hora`): every non-consumed raw entry appears unchanged among the
serialized entries, and nothing else does. -/
theorem C8_metaExactness (row : List (String × String)) :
    (transformNdRow row).meta = jsonStringifyPairs (metaEntries row)
    ∧ (∀ k v, (k, v) ∈ row → k ∉ consumedKeys → (k, v) ∈ metaEntries row)
    ∧ (∀ k v, (k, v) ∈ metaEntries row → (k, v) ∈ row ∧ k ∉ consumedKeys) := by
  refine ⟨rfl, fun k v hm hnc => ?_, fun k v hm => ?_⟩
  · simp only [metaEntries, List.mem_filter, Bool.not_eq_true']
    exact ⟨hm, by simpa using hnc⟩
  · simp only [metaEntries, List.mem_filter, Bool.not_eq_true'] at hm
    exact ⟨hm.1, by simpa using hm.2⟩

/-- C8 (witness): a non-consumed entry of a concrete row appears in its
meta entries. -/
theorem C8_metaExactness_witness :
    ("endereco", "Rua A") ∈ metaEntries [("endereco", "Rua A"), ("data", "d")] :=
  (C8_metaExactness [("endereco", "Rua A"), ("data", "d")]).2.1 "endereco" "Rua A"
    (by decide) (by decide)

/-- C9: in the NDJSON variant, with row building modelled as a fallible
function, the per-row loop writes exactly the lines of the rows that
build successfully (in order), logs every failing row with its 1-based
line number and original content, skips it (no output line), and
processes every row — the counts always add up to the number of rows, so
a row-level failure never aborts the file. -/
theorem C9_rowIsolation
    (build : List (String × String) → Except String NdRecord)
    (rows : List (List (String × String))) :
    (processNdRows build rows).1 =
      rows.filterMap (fun r =>
        match build r with
        | .ok rec => some (ndjsonLine rec)
        | .error _ => none)
    ∧ (processNdRows build rows).2 =
      (rows.enumFrom 1).filterMap (fun p =>
        match build p.2 with
        | .ok _ => none
        | .error _ => some p)
    ∧ (processNdRows build rows).1.length + (processNdRows build rows).2.length =
        rows.length := by
  have hs := processNdFrom_spec build rows 0
  exact ⟨by rw [processNdRows, hs], by rw [processNdRows, hs],
    processNdFrom_length build rows 0⟩

/-- C10: `combineDateTime` with an empty date never fails and returns
`"T{time}-03:00"` (empty date component); in particular
`combineDateTime("", "")` is `"T00:00:00-03:00"`, and an NDJSON row with
no `data` field still gets a `datahora` beginning with `"T"` rather than
an error or an empty string. -/
theorem C10_emptyDate :
    (∀ t : String, combineDateTime "" (some t) =
        "T" ++ specTimePortion (some t) ++ "-03:00")
    ∧ combineDateTime "" (some "") = "T00:00:00-03:00"
    ∧ (∀ row : List (String × String), List.lookup "data" row = none →
        (transformNdRow row).datahora =
          "T" ++ specTimePortion (some (jsGetD row "hora")) ++ "-03:00"
        ∧ (transformNdRow row).datahora ≠ "") := by
  have hT : ∀ t : String, combineDateTime "" (some t) =
      "T" ++ specTimePortion (some t) ++ "-03:00" := by
    intro t
    rw [combineDateTime_eq_spec]
    show specDatePortion "" ++ "T" ++ specTimePortion (some t) ++ "-03:00" = _
    rw [show specDatePortion "" = "" from rfl, String.empty_append]
  refine ⟨hT, by decide, fun row hl => ?_⟩
  have hd : jsGetD row "data" = "" := by simp [jsGetD, hl]
  have hdt : (transformNdRow row).datahora =
      "T" ++ specTimePortion (some (jsGetD row "hora")) ++ "-03:00" := by
    show combineDateTime (jsGetD row "data") (some (jsGetD row "hora")) = _
    rw [hd]
    exact hT _
  refine ⟨hdt, fun he => ?_⟩
  rw [hdt] at he
  have := congrArg String.data he
  simp [String.data_append] at this

/-- C10 (witness): a concrete row without a `data` key still yields a
`datahora` of the `"T{time}-03:00"` shape. -/
theorem C10_emptyDate_witness :
    (transformNdRow [("hora", "07:00:00")]).datahora =
      "T" ++ specTimePortion (some (jsGetD [("hora", "07:00:00")] "hora")) ++
        "-03:00" :=
  ((C10_emptyDate.2.2 [("hora", "07:00:00")] (by decide))).1

end Mistral
